import Mathlib

/-!
Verification of the cslog asynchronous logging engine
(csLog.h: jsonEscape, LogLine, Logger::push, Logger::rotate,
Logger::cleanupOldLogFiles, Logger::workerThread).

C++ byte strings (std::string) are modelled as `List Nat`, each element a
byte value below 256.  Machine-size counters (size_t) are modelled as Nat;
the int lineNum is modelled as Int.
-/

namespace CsLog

/-- Bytes of an ASCII Lean string literal, modelling a C++ string constant
at byte level. -/
def strBytes (s : String) : List Nat := s.data.map Char.toNat

/-- enum LogLevel from the source (OFF = -1, ERROR = 0, WARN, INFO, DEBUG). -/
inductive LogLevel where
  | off
  | error
  | warn
  | info
  | debug
deriving DecidableEq

/-- The numeric value of each enumerator. -/
def LogLevel.toInt : LogLevel → Int
  | .off => -1
  | .error => 0
  | .warn => 1
  | .info => 2
  | .debug => 3

/-- levelName from the source. -/
def levelName : LogLevel → List Nat
  | .error => strBytes "ERROR"
  | .warn => strBytes "WARN"
  | .info => strBytes "INFO"
  | .debug => strBytes "DEBUG"
  | .off => strBytes "OFF"

/-- struct LogConfig with the default member values from the source. -/
structure LogConfig where
  enable : Bool := true
  toConsole : Bool := true
  toFile : Bool := true
  level : LogLevel := .debug
  baseName : List Nat := strBytes "server"
  logPath : List Nat := strBytes "./logs/"
  maxFileCount : Int := 5
  maxFileSize : Nat := 5 * 1024 * 1024
  maxLogsTotalSize : Nat := 50 * 1024 * 1024
  maxQueueSize : Nat := 20000
  queuePolicy : String := "block"
deriving DecidableEq

/-- One lowercase hexadecimal digit character, as snprintf %x produces. -/
def hexDigit (n : Nat) : Nat :=
  if n < 10 then 48 + n else 87 + n

/-- Escape of a single byte: the switch inside jsonEscape.  For a byte
below 0x20 with no two-character escape, snprintf("\u%04x", c) yields
the six bytes backslash, u, 0, 0 and the two hex digits of the byte. -/
def escByte (c : Nat) : List Nat :=
  if c = 34 then [92, 34]
  else if c = 92 then [92, 92]
  else if c = 8 then [92, 98]
  else if c = 12 then [92, 102]
  else if c = 10 then [92, 110]
  else if c = 13 then [92, 114]
  else if c = 9 then [92, 116]
  else if c < 32 then [92, 117, 48, 48, hexDigit (c / 16), hexDigit (c % 16)]
  else [c]

/-- jsonEscape from the source: escape every byte in order. -/
def jsonEscape (s : List Nat) : List Nat := (s.map escByte).flatten

/-- The trailing newline / carriage-return stripping loop at the top of
LogLine::~LogLine: pop_back while the last byte is 10 or 13. -/
def stripTrailing (s : List Nat) : List Nat :=
  (s.reverse.dropWhile (fun c => c = 10 || c = 13)).reverse

/-- Two-digit zero-padded decimal, matching strftime %m %d %H %M %S for
in-range field values (below 100). -/
def pad2 (n : Nat) : List Nat := [48 + n / 10 % 10, 48 + n % 10]

/-- Four-digit zero-padded decimal, matching strftime %Y for years below
10000. -/
def pad4 (n : Nat) : List Nat :=
  [48 + n / 1000 % 10, 48 + n / 100 % 10, 48 + n / 10 % 10, 48 + n % 10]

/-- strftime "%Y-%m-%d %H:%M:%S" as used in LogLine::~LogLine. -/
def renderTs (y mo d h mi s : Nat) : List Nat :=
  pad4 y ++ [45] ++ pad2 mo ++ [45] ++ pad2 d ++ [32] ++ pad2 h ++ [58] ++
    pad2 mi ++ [58] ++ pad2 s

/-- Fuel-driven decimal digit rendering. -/
def natBytesAux : Nat → Nat → List Nat
  | 0, _ => []
  | fuel + 1, n => if n < 10 then [48 + n] else natBytesAux fuel (n / 10) ++ [48 + n % 10]

/-- Decimal ASCII bytes of a natural number. -/
def natBytes (n : Nat) : List Nat := natBytesAux (n + 1) n

/-- Stream insertion of an int (the lineNum field). -/
def intBytes (i : Int) : List Nat :=
  if i < 0 then 45 :: natBytes i.natAbs else natBytes i.natAbs

/-- The callsite captured by the four-argument LogLine constructor. -/
structure Callsite where
  fileName : List Nat
  lineNum : Int
  funcName : List Nat

/-- The JSON line text assembled by LogLine::~LogLine once the severity
filter has passed, given the already formatted timestamp bytes. -/
def renderLogLine (ts : List Nat) (lvl : LogLevel) (cs : Option Callsite)
    (raw : List Nat) : List Nat :=
  strBytes "\x7b" ++
  strBytes "\"time\":\"" ++ ts ++ strBytes "\"" ++
  strBytes ",\"level\":\"" ++ levelName lvl ++ strBytes "\"" ++
  (match cs with
   | none => []
   | some c =>
     strBytes ",\"file\":\"" ++ jsonEscape c.fileName ++ strBytes "\"" ++
     strBytes ",\"line\":" ++ intBytes c.lineNum ++
     strBytes ",\"func\":\"" ++ jsonEscape c.funcName ++ strBytes "\"") ++
  strBytes ",\"msg\":\"" ++ jsonEscape (stripTrailing raw) ++ strBytes "\"" ++
  strBytes "\x7d" ++ [10]

/-!
A small executable JSON reader, used to state that every emitted line is
valid JSON: it accepts only byte sequences conforming to the JSON object
grammar restricted to string and integer member values, and un-escapes
string bodies as the JSON grammar prescribes.
-/

/-- Value of one hexadecimal digit character per the JSON grammar. -/
def hexVal (c : Nat) : Option Nat :=
  if 48 ≤ c ∧ c ≤ 57 then some (c - 48)
  else if 97 ≤ c ∧ c ≤ 102 then some (c - 87)
  else if 65 ≤ c ∧ c ≤ 70 then some (c - 55)
  else none

/-- Parse the body of a JSON string up to the closing quote, un-escaping
escape sequences and rejecting raw control bytes.  Fuel bounds recursion,
one unit per produced byte. -/
def parseStringBody : Nat → List Nat → Option (List Nat × List Nat)
  | 0, _ => none
  | _ + 1, [] => none
  | fuel + 1, c :: rest =>
    if c = 34 then some ([], rest)
    else if c = 92 then
      match rest with
      | [] => none
      | e :: rest2 =>
        if e = 34 then (fun p => (34 :: p.1, p.2)) <$> parseStringBody fuel rest2
        else if e = 92 then (fun p => (92 :: p.1, p.2)) <$> parseStringBody fuel rest2
        else if e = 47 then (fun p => (47 :: p.1, p.2)) <$> parseStringBody fuel rest2
        else if e = 98 then (fun p => (8 :: p.1, p.2)) <$> parseStringBody fuel rest2
        else if e = 102 then (fun p => (12 :: p.1, p.2)) <$> parseStringBody fuel rest2
        else if e = 110 then (fun p => (10 :: p.1, p.2)) <$> parseStringBody fuel rest2
        else if e = 114 then (fun p => (13 :: p.1, p.2)) <$> parseStringBody fuel rest2
        else if e = 116 then (fun p => (9 :: p.1, p.2)) <$> parseStringBody fuel rest2
        else if e = 117 then
          match rest2 with
          | h1 :: h2 :: h3 :: h4 :: rest3 =>
            match hexVal h1, hexVal h2, hexVal h3, hexVal h4 with
            | some v1, some v2, some v3, some v4 =>
              (fun p => ((v1 * 4096 + v2 * 256 + v3 * 16 + v4) :: p.1, p.2)) <$>
                parseStringBody fuel rest3
            | _, _, _, _ => none
          | _ => none
        else none
    else if c < 32 then none
    else (fun p => (c :: p.1, p.2)) <$> parseStringBody fuel rest

/-- A parsed member value: an un-escaped string, or an integer literal
kept as a sign and its digit bytes. -/
inductive JVal where
  | str (s : List Nat)
  | num (neg : Bool) (digits : List Nat)
deriving DecidableEq

/-- ASCII decimal digit test. -/
def isDigit (c : Nat) : Bool := 48 ≤ c && c ≤ 57

/-- Parse a JSON integer literal: optional minus sign, then at least one
digit. -/
def parseNumber (l : List Nat) : Option (JVal × List Nat) :=
  match l with
  | 45 :: rest =>
    let p := rest.span isDigit
    if p.1 = [] then none else some (.num true p.1, p.2)
  | _ =>
    let p := l.span isDigit
    if p.1 = [] then none else some (.num false p.1, p.2)

/-- Parse a member value: a string or an integer literal. -/
def parseValue (fuel : Nat) (l : List Nat) : Option (JVal × List Nat) :=
  match l with
  | 34 :: rest => (fun p => (JVal.str p.1, p.2)) <$> parseStringBody fuel rest
  | _ => parseNumber l

/-- Parse one "key":value member. -/
def parseMember (fuel : Nat) (l : List Nat) :
    Option ((List Nat × JVal) × List Nat) :=
  match l with
  | 34 :: rest =>
    match parseStringBody fuel rest with
    | some (key, rest1) =>
      match rest1 with
      | 58 :: rest2 => (fun p => ((key, p.1), p.2)) <$> parseValue fuel rest2
      | _ => none
    | none => none
  | _ => none

/-- Parse a comma-separated nonempty member sequence.  Fuel bounds the
member count; each member parse receives fuel derived from the remaining
input length. -/
def parseMembers : Nat → List Nat → Option (List (List Nat × JVal) × List Nat)
  | 0, _ => none
  | fuel + 1, l =>
    match parseMember (l.length + 1) l with
    | none => none
    | some (kv, rest) =>
      match rest with
      | 44 :: rest2 => (fun p => (kv :: p.1, p.2)) <$> parseMembers fuel rest2
      | _ => some ([kv], rest)

/-- Parse a JSON object with at least one member. -/
def parseObject (fuel : Nat) (l : List Nat) :
    Option (List (List Nat × JVal) × List Nat) :=
  match l with
  | 123 :: rest =>
    match parseMembers fuel rest with
    | some (ms, 125 :: rest2) => some (ms, rest2)
    | _ => none
  | _ => none

/-- A full emitted log line: one JSON object followed by exactly one
newline byte. -/
def parseLogLine (l : List Nat) : Option (List (List Nat × JVal)) :=
  match parseObject (l.length + 1) l with
  | some (ms, [10]) => some ms
  | _ => none

/-- Key lookup among parsed members. -/
def lookupKey (k : List Nat) : List (List Nat × JVal) → Option JVal
  | [] => none
  | kv :: rest => if kv.1 = k then some kv.2 else lookupKey k rest

/-! ### Queue and producer model: struct LogTask, Logger::push,
LogLine::~LogLine, and the lazy singleton construction. -/

/-- struct LogTask. -/
structure LogTask where
  lvl : LogLevel
  text : List Nat
deriving DecidableEq

/-- Producer-visible engine state: the task queue and a count of the
warning lines printed to stderr by the warn overflow policy. -/
structure QState where
  queue : List LogTask
  warnLines : Nat
deriving DecidableEq

/-- Logger::push.  The severity filter runs first; at capacity the
configured policy applies.  The Block policy waits on the condition
variable until the consumer drains the queue below capacity and then
appends; a sequential embedding cannot represent that cross-thread
drain, so the at-capacity Block case is returned as none (producer
suspended).  Every other path returns the post-call state. -/
def pushModel (cfg : LogConfig) (t : LogTask) (st : QState) : Option QState :=
  if ¬(cfg.enable = true ∧ t.lvl.toInt ≤ cfg.level.toInt) then some st
  else if cfg.maxQueueSize ≤ st.queue.length then
    if cfg.queuePolicy = "drop" then some st
    else if cfg.queuePolicy = "warn" then
      some { st with warnLines := st.warnLines + 1 }
    else if cfg.queuePolicy = "block" then none
    else some { st with queue := st.queue ++ [t] }
  else some { st with queue := st.queue ++ [t] }

/-- One emit on a running engine, as performed by LogLine::~LogLine:
severity filter, trailing newline stripping, JSON rendering, then
Logger::push (which re-checks the same filter). -/
def emitModel (cfg : LogConfig) (ts : List Nat) (lvl : LogLevel)
    (cs : Option Callsite) (msg : List Nat) (st : QState) : Option QState :=
  if ¬(cfg.enable = true ∧ lvl.toInt ≤ cfg.level.toInt) then some st
  else pushModel cfg ⟨lvl, renderLogLine ts lvl cs msg⟩ st

/-- Result of the external YAML parse of CSLOG_CONFIG_PATH: the library
either produces a document (here already projected onto the config
fields) or throws, e.g. YAML::BadFile when the file does not exist. -/
inductive YamlSource where
  | missing
  | doc (cfg : LogConfig)

/-- Logger::loadConfigFromFile: YAML::LoadFile is called outside any
try/catch block, so a load failure escapes as an exception. -/
def loadConfigFromFile : YamlSource → Except String LogConfig
  | .missing => .error "YAML load failure"
  | .doc cfg => .ok cfg

/-- The lazily constructed Logger singleton, or none before first use. -/
structure EngineState where
  cfg : LogConfig
  qs : QState
deriving DecidableEq

/-- A top-level LOG macro use.  On the first use, LogLine::~LogLine calls
Logger::instance(), whose constructor runs loadConfigFromFile and starts
the worker; an exception from the constructor escapes to the caller.  On
an already constructed engine no throwing operation remains.  The inner
Option is none when the producer is suspended in the Block policy wait. -/
def emitTop (engine : Option EngineState) (src : YamlSource)
    (ts : List Nat) (lvl : LogLevel) (cs : Option Callsite) (msg : List Nat) :
    Except String (Option EngineState) :=
  match engine with
  | some e =>
    .ok ((emitModel e.cfg ts lvl cs msg e.qs).map fun q => { e with qs := q })
  | none =>
    match loadConfigFromFile src with
    | .error err => .error err
    | .ok cfg =>
      .ok ((emitModel cfg ts lvl cs msg ⟨[], 0⟩).map
        fun q => ({ cfg := cfg, qs := q } : EngineState))

/-- UTF-8 bytes of the string literal in the LOG_INFO line inside
createNewLogFile. -/
def newFileMsgPrefix : List Nat :=
  [230, 151, 165, 229, 191, 151, 230, 150, 135, 228, 187, 182, 239, 188, 154]

/-- The snprintf suffix "_%04d-%02d-%02d_%02d-%02d-%02d.log" used by
createNewLogFile. -/
def fileNameSuffix (y mo d h mi s : Nat) : List Nat :=
  [95] ++ pad4 y ++ [45] ++ pad2 mo ++ [45] ++ pad2 d ++ [95] ++ pad2 h ++
    [45] ++ pad2 mi ++ [45] ++ pad2 s ++ strBytes ".log"

/-- currentFileName assembled by createNewLogFile. -/
def newLogFilePath (cfg : LogConfig) (y mo d h mi s : Nat) : List Nat :=
  cfg.logPath ++ cfg.baseName ++ fileNameSuffix y mo d h mi s

/-- The self-record of createNewLogFile: a LogLine temporary at INFO level
with message prefix ++ currentFileName, whose destructor runs the usual
filter, render and push on the consumer thread. -/
def createNewLogFileEmit (cfg : LogConfig) (ts : List Nat) (path : List Nat)
    (st : QState) : Option QState :=
  emitModel cfg ts .info none (newFileMsgPrefix ++ path) st

/-! ### Directory cleanup model: Logger::cleanupOldLogFiles. -/

/-- A directory entry as seen through fs::directory_iterator. -/
structure FileEntry where
  name : List Nat
  size : Nat
  mtime : Nat
deriving DecidableEq

/-- The candidate filter: name starts with baseName ++ "_", is strictly
longer than prefix plus suffix, and ends in ".log". -/
def matchesLogPattern (base : List Nat) (name : List Nat) : Bool :=
  let pfx := base ++ [95]
  let sfx := strBytes ".log"
  decide (name.take pfx.length = pfx) &&
  decide (pfx.length + sfx.length < name.length) &&
  decide (name.drop (name.length - sfx.length) = sfx)

/-- Ascending insertion by last-modified time. -/
def insertByMtime (f : FileEntry) : List FileEntry → List FileEntry
  | [] => [f]
  | g :: rest =>
    if f.mtime < g.mtime then f :: g :: rest else g :: insertByMtime f rest

/-- std::sort with the last_write_time comparator, realised as insertion
sort (any ascending reordering; ties are unspecified in std::sort too). -/
def sortByMtime : List FileEntry → List FileEntry
  | [] => []
  | f :: rest => insertByMtime f (sortByMtime rest)

/-- Aggregate size of a list of entries. -/
def totalSizeOf (files : List FileEntry) : Nat :=
  (files.map FileEntry.size).sum

/-- The deletion loop of cleanupOldLogFiles: walk the sorted candidates,
stopping as soon as totalSize is within the cap, otherwise removing the
file and decreasing totalSize with an underflow guard (Nat subtraction).
Returns the surviving candidates and the final totalSize. -/
def deleteLoop (maxTotal : Nat) : List FileEntry → Nat → List FileEntry × Nat
  | [], total => ([], total)
  | f :: rest, total =>
    if total ≤ maxTotal then (f :: rest, total)
    else deleteLoop maxTotal rest (total - f.size)

/-- Logger::cleanupOldLogFiles, acting on the directory contents: return
unchanged when maxLogsTotalSize is 0, when no file matches the pattern or
when the aggregate size is within the cap; otherwise delete candidates in
ascending mtime order until within the cap or none remain. -/
def cleanupOldLogFiles (cfg : LogConfig) (dir : List FileEntry) :
    List FileEntry :=
  if cfg.maxLogsTotalSize = 0 then dir
  else
    let files := dir.filter fun e => matchesLogPattern cfg.baseName e.name
    if files = [] then dir
    else if totalSizeOf files ≤ cfg.maxLogsTotalSize then dir
    else
      (dir.filter fun e => !matchesLogPattern cfg.baseName e.name) ++
        (deleteLoop cfg.maxLogsTotalSize (sortByMtime files)
          (totalSizeOf files)).1

/-! ### Rotation model: the write-then-rotate step of workerThread with
Logger::rotate.  A record is appended whole before the rotation test
runs, so a record is never split across files. -/

/-- The session byte counter plus the closed files, each recorded with
its final size and the size of its last appended record.  File opens are
modelled as succeeding with a fresh empty file (a new timestamped
name). -/
structure RotState where
  currentSize : Nat
  closedFiles : List (Nat × Nat)
deriving DecidableEq

/-- One successful file write followed by Logger::rotate: append the
whole record (step.1 bytes), add its size to the counter, then rotate
iff the counter reached maxFileSize: flush and close the session
(recording its final size and the size of its last record), run cleanup,
then createNewLogFile append-opens the second-resolution timestamped
path and initializes the counter to that path's size via tellp — step.2,
which is 0 when the name is fresh and is the just-closed size when
rotation recurs within the same second and the name collides. -/
def writeAndRotate (maxFileSize : Nat) (st : RotState) (step : Nat × Nat) :
    RotState :=
  let sz := st.currentSize + step.1
  if maxFileSize ≤ sz then
    { currentSize := step.2, closedFiles := st.closedFiles ++ [(sz, step.1)] }
  else { st with currentSize := sz }

/-- A whole sequence of file writes, each paired with the tellp value of
the replacement open should it trigger rotation, starting from a fresh
session. -/
def runWrites (maxFileSize : Nat) (steps : List (Nat × Nat)) : RotState :=
  steps.foldl (writeAndRotate maxFileSize) ⟨0, []⟩

/-! ### Worker loop model: one iteration of workerThread. -/

/-- Consumer-side state for one iteration of the worker loop. -/
structure WorkerState where
  queue : List LogTask
  fileOpen : Bool
  currentSize : Nat
  bytesSinceFlush : Nat
  lastFlush : Nat
  flushCount : Nat
deriving DecidableEq

/-- createNewLogFile, file-state effect: on open failure the size counter
is zeroed and the session stays closed (bytesSinceFlush untouched, as in
the early return); on success the counter is initialized to the opened
path's current size via tellp — openSize, 0 for a fresh timestamped name
and the old size on a same-second name collision — and bytesSinceFlush is
zeroed.  The LOG_INFO self-record is modelled by createNewLogFileEmit. -/
def createFileState (openOk : Bool) (openSize : Nat) (st : WorkerState) :
    WorkerState :=
  if openOk then
    { st with fileOpen := true, currentSize := openSize,
              bytesSinceFlush := 0 }
  else { st with fileOpen := false, currentSize := 0 }

/-- Logger::openFileOnce: no-op when a session is open; otherwise create
the directory, run cleanup, then createNewLogFile. -/
def openFileOnce (openOk : Bool) (openSize : Nat) (st : WorkerState) :
    WorkerState :=
  if st.fileOpen then st else createFileState openOk openSize st

/-- Logger::rotate on the worker state; flushes and closes the open
session when the counter has reached maxFileSize, then reopens. -/
def rotateState (cfg : LogConfig) (openOk : Bool) (openSize : Nat)
    (st : WorkerState) : WorkerState :=
  if st.currentSize < cfg.maxFileSize then st
  else
    createFileState openOk openSize
      (if st.fileOpen then
        { st with flushCount := st.flushCount + 1, fileOpen := false }
      else st)

/-- The hasTask branch of one worker iteration: console routing (not part
of the file state), then file routing: openFileOnce, append the payload,
update both byte counters, rotate, and the immediate flush for
severities at or below LOG_LEVEL_ERROR. -/
def processTask (cfg : LogConfig) (now : Nat) (openOk : Bool) (sz1 : Nat)
    (openOk2 : Bool) (sz2 : Nat) (t : LogTask) (st : WorkerState) :
    WorkerState :=
  if cfg.toFile then
    let st1 := openFileOnce openOk sz1 st
    if st1.fileOpen then
      let st2 := { st1 with
        currentSize := st1.currentSize + t.text.length,
        bytesSinceFlush := st1.bytesSinceFlush + t.text.length }
      let st3 := rotateState cfg openOk2 sz2 st2
      if t.lvl.toInt ≤ (0 : Int) then
        { st3 with flushCount := st3.flushCount + 1, bytesSinceFlush := 0,
                   lastFlush := now }
      else st3
    else st1
  else st

/-- Dequeue at most one task and run the hasTask branch on it. -/
def recordPhase (cfg : LogConfig) (now : Nat) (openOk : Bool) (sz1 : Nat)
    (openOk2 : Bool) (sz2 : Nat) (st : WorkerState) : WorkerState :=
  match st.queue with
  | [] => st
  | t :: rest =>
    processTask cfg now openOk sz1 openOk2 sz2 t { st with queue := rest }

/-- The per-iteration flush policy block at the bottom of the worker
loop: with file routing enabled and a session open, flush if the byte
accumulator reached 32 KiB, else if at least 1000 ms elapsed since the
last flush; a flush zeroes the accumulator and restarts the timer. -/
def flushPolicyStep (cfg : LogConfig) (now : Nat) (st : WorkerState) :
    WorkerState :=
  if cfg.toFile && st.fileOpen then
    if 32 * 1024 ≤ st.bytesSinceFlush then
      { st with flushCount := st.flushCount + 1, bytesSinceFlush := 0,
                lastFlush := now }
    else if 1000 ≤ now - st.lastFlush then
      { st with flushCount := st.flushCount + 1, bytesSinceFlush := 0,
                lastFlush := now }
    else st
  else st

/-- One continuing iteration of the worker loop (the exit test did not
fire): dequeue and process at most one task, then evaluate the flush
policy regardless of whether a task was present. -/
def workerIter (cfg : LogConfig) (now : Nat) (openOk : Bool) (sz1 : Nat)
    (openOk2 : Bool) (sz2 : Nat) (st : WorkerState) : WorkerState :=
  flushPolicyStep cfg now (recordPhase cfg now openOk sz1 openOk2 sz2 st)

/-! ### Spec-side severity order, for the refinement half of the
threshold claim. -/

/-- Modelled from the spec: the position of a severity in the ordered set
Error, Warn, Info, Debug (Error most severe, lower rank = more severe);
OFF is not a member of that set. -/
def severityRank : LogLevel → Option Nat
  | .error => some 0
  | .warn => some 1
  | .info => some 2
  | .debug => some 3
  | .off => none

/-- Modelled from the spec: a threshold admits a severity iff its rank is
at or above (more severe than or equal to, i.e. numerically at most) the
rank of the configured minimum verbosity. -/
def specAdmits (minLevel lvl : LogLevel) : Prop :=
  ∃ i j, severityRank lvl = some i ∧ severityRank minLevel = some j ∧ i ≤ j

/-! ### Member-chunk helpers used to relate the rendered line to the
JSON reader. -/

/-- The bytes of one member whose value is a raw byte body that contains
no quote, backslash or control byte (time, level). -/
def mRawChunk (key body : List Nat) : List Nat :=
  34 :: key ++ 34 :: 58 :: 34 :: body ++ [34]

/-- The bytes of one member whose value is a jsonEscaped string body
(file, func, msg). -/
def mStrChunk (key content : List Nat) : List Nat :=
  34 :: key ++ 34 :: 58 :: 34 :: jsonEscape content ++ [34]

/-- The bytes of one member whose value is an integer literal (line). -/
def mNumChunk (key : List Nat) (i : Int) : List Nat :=
  34 :: key ++ 34 :: 58 :: intBytes i

/-- Comma-joined member byte chunks, each paired with its parse. -/
def joinMembers : List (List Nat × (List Nat × JVal)) → List Nat
  | [] => []
  | [c] => c.1
  | c :: rest => c.1 ++ 44 :: joinMembers rest

example : jsonEscape (strBytes "a\n b") = strBytes "a\\n b" := by decide
example : stripTrailing (strBytes "hi\r\n") = strBytes "hi" := by decide
example : intBytes (-12) = strBytes "-12" := by decide
example : renderTs 2025 12 10 18 0 1 = strBytes "2025-12-10 18:00:01" := by decide

example :
    parseLogLine (renderLogLine (renderTs 2025 12 10 18 0 1) .info none
      (strBytes "hello\n")) =
    some [(strBytes "time", .str (strBytes "2025-12-10 18:00:01")),
          (strBytes "level", .str (strBytes "INFO")),
          (strBytes "msg", .str (strBytes "hello"))] := by decide

example :
    (parseLogLine (renderLogLine (renderTs 2025 12 10 18 0 1) .error
      (some ⟨strBytes "main.cpp", 12, strBytes "main"⟩)
      (strBytes "x=\"1\"\t"))).bind (lookupKey (strBytes "msg")) =
    some (.str (strBytes "x=\"1\"\t")) := by decide

/-! ## Claim theorems -/

/-- Invariant of the write-then-rotate step. -/
def rotInv (m : Nat) (st : RotState) : Prop :=
  (st.currentSize = 0 ∨ st.currentSize < m) ∧
    ∀ f ∈ st.closedFiles, f.1 ≤ m + f.2

theorem writeAndRotate_preserves (m : Nat) (st : RotState)
    (step : Nat × Nat) (h : rotInv m st) (hfresh : step.2 = 0) :
    rotInv m (writeAndRotate m st step) := by
  obtain ⟨hc, hf⟩ := h
  unfold writeAndRotate rotInv
  dsimp only
  split
  · refine ⟨Or.inl hfresh, ?_⟩
    intro f hmem
    rcases List.mem_append.mp hmem with hr | hr
    · exact hf f hr
    · rcases List.mem_singleton.mp hr with rfl
      dsimp only
      rcases hc with h0 | hlt <;> omega
  · refine ⟨Or.inr ?_, hf⟩
    dsimp only
    omega

theorem foldl_writeAndRotate_inv (m : Nat) (steps : List (Nat × Nat))
    (st : RotState) (h : rotInv m st) (hfresh : ∀ p ∈ steps, p.2 = 0) :
    rotInv m (steps.foldl (writeAndRotate m) st) := by
  induction steps generalizing st with
  | nil => exact h
  | cons p rest ih =>
    exact ih _
      (writeAndRotate_preserves m st p h
        (hfresh p (List.mem_cons_self p rest)))
      fun q hq => hfresh q (List.mem_cons_of_mem _ hq)

/-- C2 amended: rotation is evaluated after every successful file write;
whenever the post-write byte counter is at least maxFileSize the session
is flushed and closed (its final size and last record recorded), cleanup
runs, and a replacement open restarts the counter at the opened path's
tellp size.  Records are appended whole before the rotation test, so the
record that crossed the cap is never split across files.  Provided every
replacement open lands on a fresh path (tellp 0, i.e. no same-second
timestamp collision), every closed session's final size is at most
maxFileSize plus the size of its last appended record. -/
theorem rotate_after_write_bounds_file_size (m : Nat)
    (steps : List (Nat × Nat)) (hfresh : ∀ p ∈ steps, p.2 = 0) :
    (∀ (st : RotState) (step : Nat × Nat), m ≤ st.currentSize + step.1 →
      (writeAndRotate m st step).currentSize = step.2 ∧
      (writeAndRotate m st step).closedFiles =
        st.closedFiles ++ [(st.currentSize + step.1, step.1)]) ∧
    ∀ f ∈ (runWrites m steps).closedFiles, f.1 ≤ m + f.2 := by
  constructor
  · intro st step hge
    unfold writeAndRotate
    simp [hge]
  · have h := foldl_writeAndRotate_inv m steps ⟨0, []⟩
      ⟨Or.inl rfl, by intro f hf; simp at hf⟩ hfresh
    exact h.2

/-- Witness for C2 at maxFileSize 1000, two records of 600 bytes, both
opens fresh: the single closed file has size 1200 ≤ 1000 + 600. -/
theorem rotate_after_write_bounds_file_size_witness :
    (1200, 600).1 ≤ 1000 + (1200, 600).2 :=
  (rotate_after_write_bounds_file_size 1000 [(600, 0), (600, 0)]
    (by decide)).2 (1200, 600) (by decide)

/-- C2 counterexample: maxFileSize 10 with three 8-byte records arriving
within one second.  The first rotation closes the timestamped file at
size 16; createNewLogFile reuses the same second-resolution name, so the
append-open finds the path at size 16 and tellp restarts the counter
there.  The next write closes the file at size 24 with last record 8, and
24 exceeds maxFileSize + last record = 18: the size bound of the claim
fails under same-second rotation. -/
theorem same_second_rotation_breaks_size_bound :
    (24, 8) ∈ (runWrites 10 [(8, 0), (8, 16), (8, 0)]).closedFiles ∧
    10 + 8 < 24 := by decide

/-- C4 counterexample: the very first LOG macro use constructs the Logger
singleton; loadConfigFromFile calls YAML::LoadFile outside any try/catch,
so with the configuration file missing the exception reaches the
caller. -/
theorem first_emit_missing_config_raises :
    emitTop none .missing (strBytes "ts") .info none [] =
      .error "YAML load failure" := rfl

/-- C4 amended: emit never raises to the caller once the engine is
constructed, and a first call whose configuration loads successfully also
returns without raising; only the very first call with a failing
configuration load propagates the exception. -/
theorem emit_never_raises_after_start (e : EngineState) (src : YamlSource)
    (ts : List Nat) (lvl : LogLevel) (cs : Option Callsite) (msg : List Nat) :
    (∃ r, emitTop (some e) src ts lvl cs msg = .ok r) ∧
    ∀ cfg, ∃ r, emitTop none (.doc cfg) ts lvl cs msg = .ok r := by
  constructor
  · exact ⟨_, rfl⟩
  · intro cfg
    exact ⟨_, rfl⟩

/-- C5: at queue capacity, the drop policy returns with the whole state
unchanged, and the warn policy returns with the queue unchanged and
exactly one additional stderr warning line. -/
theorem push_at_capacity_drop_warn (cfg : LogConfig) (t : LogTask)
    (st : QState) (hcap : cfg.maxQueueSize ≤ st.queue.length)
    (hadm : cfg.enable = true ∧ t.lvl.toInt ≤ cfg.level.toInt) :
    (cfg.queuePolicy = "drop" → pushModel cfg t st = some st) ∧
    (cfg.queuePolicy = "warn" →
      pushModel cfg t st =
        some { st with warnLines := st.warnLines + 1 }) := by
  constructor <;> intro hp <;> simp [pushModel, hadm, hcap, hp]

/-- Witness for C5 with a queue of capacity 0. -/
theorem push_at_capacity_drop_warn_witness :
    pushModel { maxQueueSize := 0, queuePolicy := "drop" }
      ⟨.info, []⟩ ⟨[], 0⟩ = some ⟨[], 0⟩ :=
  (push_at_capacity_drop_warn { maxQueueSize := 0, queuePolicy := "drop" }
    ⟨.info, []⟩ ⟨[], 0⟩ (by decide) (by decide)).1 rfl

/-- C6: emit is a no-op on the engine state whenever the engine is
disabled or the severity fails the threshold test, and the spec-side
rank criterion (rank at or above the configured minimum verbosity)
coincides with the numeric test of the code (level value at most the
configured level) on the severity set Error..Debug. -/
theorem emit_filtered_is_noop (cfg : LogConfig) (ts : List Nat)
    (lvl : LogLevel) (cs : Option Callsite) (msg : List Nat) (st : QState)
    (h : ¬(cfg.enable = true ∧ lvl.toInt ≤ cfg.level.toInt)) :
    emitModel cfg ts lvl cs msg st = some st ∧
    ∀ l t : LogLevel, l ≠ .off → t ≠ .off →
      (specAdmits t l ↔ l.toInt ≤ t.toInt) := by
  constructor
  · simp only [emitModel, h, not_false_eq_true, if_pos]
  · intro l t hl ht
    cases l <;> cases t <;>
      simp_all [specAdmits, severityRank, LogLevel.toInt]

/-- Witness for C6: a disabled engine drops an Error emit, state
unchanged. -/
theorem emit_filtered_is_noop_witness :
    emitModel { enable := false } [] .error none [] ⟨[], 0⟩ =
      some ⟨[], 0⟩ :=
  (emit_filtered_is_noop { enable := false } [] .error none [] ⟨[], 0⟩
    (by decide)).1

/-- C9: with any overflowPolicy string other than "drop", "warn" and
"block", a push that finds the queue at capacity still appends the
record without waiting, so the queue depth exceeds maxQueueSize. -/
theorem push_unknown_policy_exceeds_capacity (cfg : LogConfig)
    (t : LogTask) (st : QState)
    (hcap : cfg.maxQueueSize ≤ st.queue.length)
    (hadm : cfg.enable = true ∧ t.lvl.toInt ≤ cfg.level.toInt)
    (h1 : cfg.queuePolicy ≠ "drop") (h2 : cfg.queuePolicy ≠ "warn")
    (h3 : cfg.queuePolicy ≠ "block") :
    pushModel cfg t st = some { st with queue := st.queue ++ [t] } ∧
    cfg.maxQueueSize < (st.queue ++ [t]).length := by
  refine ⟨?_, ?_⟩
  · simp [pushModel, hadm, hcap, h1, h2, h3]
  · simp only [List.length_append, List.length_cons, List.length_nil]
    omega

/-- Witness for C9 with the unrecognized policy "discard". -/
theorem push_unknown_policy_exceeds_capacity_witness :
    pushModel { maxQueueSize := 1, queuePolicy := "discard" }
        ⟨.info, [97]⟩ ⟨[⟨.info, []⟩], 0⟩ =
      some ⟨[⟨.info, []⟩, ⟨.info, [97]⟩], 0⟩ :=
  (push_unknown_policy_exceeds_capacity
    { maxQueueSize := 1, queuePolicy := "discard" } ⟨.info, [97]⟩
    ⟨[⟨.info, []⟩], 0⟩ (by decide) (by decide)
    (by decide) (by decide) (by decide)).1

/-- C7: one continuing worker iteration is, by construction, the record
phase followed by the flush-policy evaluation, whatever the dequeued
record (or none) was; the flush policy flushes iff the byte accumulator
reached 32 KiB or at least one second elapsed since the last flush, and a
flush zeroes the accumulator and restarts the timer. -/
theorem worker_iteration_flush_policy (cfg : LogConfig) (now : Nat)
    (a b : Bool) (asz bsz : Nat) (st s : WorkerState)
    (hT : cfg.toFile = true) (hO : s.fileOpen = true) :
    workerIter cfg now a asz b bsz st =
      flushPolicyStep cfg now (recordPhase cfg now a asz b bsz st) ∧
    (32 * 1024 ≤ s.bytesSinceFlush ∨ 1000 ≤ now - s.lastFlush →
      flushPolicyStep cfg now s =
        { s with flushCount := s.flushCount + 1, bytesSinceFlush := 0,
                 lastFlush := now }) ∧
    (¬(32 * 1024 ≤ s.bytesSinceFlush) ∧ ¬(1000 ≤ now - s.lastFlush) →
      flushPolicyStep cfg now s = s) := by
  refine ⟨rfl, ?_, ?_⟩
  · intro hcond
    by_cases hb : 32 * 1024 ≤ s.bytesSinceFlush
    · simp [flushPolicyStep, hT, hO, hb]
    · rcases hcond with hcond | hcond
      · exact absurd hcond hb
      · simp [flushPolicyStep, hT, hO, hb, hcond]
  · rintro ⟨h1, h2⟩
    simp [flushPolicyStep, hT, hO, h1, h2]

/-- Witness for C7: a state 1200 ms past its last flush gets flushed. -/
theorem worker_iteration_flush_policy_witness :
    flushPolicyStep {} 1200 ⟨[], true, 0, 5, 0, 0⟩ =
      ⟨[], true, 0, 0, 1200, 1⟩ :=
  ((worker_iteration_flush_policy {} 1200 true true 0 0
      ⟨[], true, 0, 5, 0, 0⟩ ⟨[], true, 0, 5, 0, 0⟩ rfl rfl).2.1
    (Or.inr (by decide)))

theorem rotateState_flushCount_le (cfg : LogConfig) (b : Bool)
    (bsz : Nat) (s : WorkerState) :
    s.flushCount ≤ (rotateState cfg b bsz s).flushCount := by
  unfold rotateState createFileState
  split_ifs <;> simp

theorem flushPolicyStep_keeps_zero (cfg : LogConfig) (now : Nat)
    (s : WorkerState) (h0 : s.bytesSinceFlush = 0) :
    (flushPolicyStep cfg now s).bytesSinceFlush = 0 := by
  unfold flushPolicyStep
  split_ifs <;> simp [h0]

/-- C8: when the consumer dequeues a most-severe (Error) record with file
routing enabled and a session open, the record phase forces an immediate
flush: the byte accumulator is zero, the flush timer is reset to now, and
the flush count strictly increased; the byte accumulator is still zero
after the full iteration. -/
theorem error_record_forces_flush (cfg : LogConfig) (now : Nat)
    (a b : Bool) (asz bsz : Nat) (t : LogTask) (rest : List LogTask)
    (st : WorkerState)
    (hq : st.queue = t :: rest) (hT : cfg.toFile = true)
    (hO : st.fileOpen = true) (hE : t.lvl = .error) :
    (processTask cfg now a asz b bsz t
      { st with queue := rest }).bytesSinceFlush = 0 ∧
    (processTask cfg now a asz b bsz t
      { st with queue := rest }).lastFlush = now ∧
    st.flushCount <
      (processTask cfg now a asz b bsz t
        { st with queue := rest }).flushCount ∧
    (workerIter cfg now a asz b bsz st).bytesSinceFlush = 0 := by
  have key : ∀ s : WorkerState, s.fileOpen = true →
      processTask cfg now a asz b bsz t s =
        { rotateState cfg b bsz
            { s with currentSize := s.currentSize + t.text.length,
                     bytesSinceFlush := s.bytesSinceFlush + t.text.length }
          with
          flushCount :=
            (rotateState cfg b bsz
              { s with currentSize := s.currentSize + t.text.length,
                       bytesSinceFlush :=
                         s.bytesSinceFlush + t.text.length }).flushCount + 1,
          bytesSinceFlush := 0, lastFlush := now } := by
    intro s hOs
    have hOpen1 : openFileOnce a asz s = s := by simp [openFileOnce, hOs]
    unfold processTask
    rw [hOpen1]
    simp [hT, hOs, hE, LogLevel.toInt]
  have hOq : ({ st with queue := rest } : WorkerState).fileOpen = true := hO
  rw [key { st with queue := rest } hOq]
  have hle := rotateState_flushCount_le cfg b bsz
    { st with queue := rest,
              currentSize := st.currentSize + t.text.length,
              bytesSinceFlush := st.bytesSinceFlush + t.text.length }
  have hle2 : st.flushCount ≤
      (rotateState cfg b bsz
        { st with queue := rest,
                  currentSize := st.currentSize + t.text.length,
                  bytesSinceFlush :=
                    st.bytesSinceFlush + t.text.length }).flushCount := hle
  refine ⟨rfl, rfl, Nat.lt_succ_of_le hle2, ?_⟩
  unfold workerIter
  have hrp : recordPhase cfg now a asz b bsz st =
      processTask cfg now a asz b bsz t { st with queue := rest } := by
    unfold recordPhase
    rw [hq]
  rw [hrp, key { st with queue := rest } hOq]
  exact flushPolicyStep_keeps_zero cfg now _ rfl

theorem totalSizeOf_nil : totalSizeOf [] = 0 := rfl

theorem totalSizeOf_cons (f : FileEntry) (l : List FileEntry) :
    totalSizeOf (f :: l) = f.size + totalSizeOf l := by
  simp [totalSizeOf]

theorem deleteLoop_le (m : Nat) (l : List FileEntry) (t : Nat)
    (h : t = totalSizeOf l) : totalSizeOf (deleteLoop m l t).1 ≤ m := by
  induction l generalizing t with
  | nil =>
    simp [deleteLoop, totalSizeOf]
  | cons f rest ih =>
    unfold deleteLoop
    split
    · next hle =>
      simpa [← h] using hle
    · next hgt =>
      apply ih
      rw [totalSizeOf_cons] at h
      omega

theorem deleteLoop_subset (m : Nat) (l : List FileEntry) (t : Nat) :
    ∀ x ∈ (deleteLoop m l t).1, x ∈ l := by
  induction l generalizing t with
  | nil => simp [deleteLoop]
  | cons f rest ih =>
    unfold deleteLoop
    split
    · intro x hx; exact hx
    · intro x hx
      exact List.mem_cons_of_mem f (ih _ x hx)

theorem mem_insertByMtime (f x : FileEntry) (l : List FileEntry) :
    x ∈ insertByMtime f l ↔ x = f ∨ x ∈ l := by
  induction l with
  | nil => simp [insertByMtime]
  | cons g rest ih =>
    unfold insertByMtime
    split
    · simp
    · rw [List.mem_cons, ih, List.mem_cons]
      tauto

theorem mem_sortByMtime (x : FileEntry) (l : List FileEntry) :
    x ∈ sortByMtime l ↔ x ∈ l := by
  induction l with
  | nil => simp [sortByMtime]
  | cons f rest ih =>
    unfold sortByMtime
    rw [mem_insertByMtime]
    simp [ih]

theorem totalSizeOf_insertByMtime (f : FileEntry) (l : List FileEntry) :
    totalSizeOf (insertByMtime f l) = f.size + totalSizeOf l := by
  induction l with
  | nil => simp [insertByMtime, totalSizeOf]
  | cons g rest ih =>
    unfold insertByMtime
    split
    · rfl
    · rw [totalSizeOf_cons, ih, totalSizeOf_cons]
      omega

theorem totalSizeOf_sortByMtime (l : List FileEntry) :
    totalSizeOf (sortByMtime l) = totalSizeOf l := by
  induction l with
  | nil => rfl
  | cons f rest ih =>
    unfold sortByMtime
    rw [totalSizeOf_insertByMtime, ih, totalSizeOf_cons]

theorem filter_append_survivors (p : FileEntry → Bool)
    (A surv : List FileEntry) (h : ∀ x ∈ surv, p x = true) :
    ((A.filter fun e => !p e) ++ surv).filter p = surv := by
  rw [List.filter_append]
  have h1 : (A.filter fun e => !p e).filter p = [] := by
    rw [List.filter_eq_nil_iff]
    intro a ha
    have h2 := (List.mem_filter.mp ha).2
    simp at h2
    simp [h2]
  rw [h1, List.nil_append]
  exact List.filter_eq_self.mpr h

/-- C1 amended: with maxLogsTotalSize nonzero, a completed cleanup pass
is a no-op when the aggregate size of matching files is already within
the cap, and always leaves the aggregate size of matching files within
the cap (in particular, aggregate within cap or zero matching files
remain). -/
theorem cleanup_bounds_aggregate (cfg : LogConfig) (dir : List FileEntry)
    (hm : cfg.maxLogsTotalSize ≠ 0) :
    (totalSizeOf (dir.filter fun e => matchesLogPattern cfg.baseName e.name)
        ≤ cfg.maxLogsTotalSize →
      cleanupOldLogFiles cfg dir = dir) ∧
    totalSizeOf ((cleanupOldLogFiles cfg dir).filter
        fun e => matchesLogPattern cfg.baseName e.name)
      ≤ cfg.maxLogsTotalSize := by
  unfold cleanupOldLogFiles
  rw [if_neg hm]
  by_cases hfe :
      (dir.filter fun e => matchesLogPattern cfg.baseName e.name) = []
  · rw [if_pos hfe]
    exact ⟨fun _ => rfl, by rw [hfe]; exact Nat.zero_le _⟩
  · rw [if_neg hfe]
    by_cases hle :
        totalSizeOf (dir.filter fun e => matchesLogPattern cfg.baseName e.name)
          ≤ cfg.maxLogsTotalSize
    · rw [if_pos hle]
      exact ⟨fun _ => rfl, hle⟩
    · rw [if_neg hle]
      refine ⟨fun hcontra => absurd hcontra hle, ?_⟩
      have hsurv : ∀ x ∈ (deleteLoop cfg.maxLogsTotalSize
          (sortByMtime (dir.filter fun e =>
            matchesLogPattern cfg.baseName e.name))
          (totalSizeOf (dir.filter fun e =>
            matchesLogPattern cfg.baseName e.name))).1,
          matchesLogPattern cfg.baseName x.name = true := by
        intro x hx
        have hx2 := deleteLoop_subset _ _ _ x hx
        have hx3 := (mem_sortByMtime x _).mp hx2
        exact (List.mem_filter.mp hx3).2
      rw [filter_append_survivors _ _ _ hsurv]
      exact deleteLoop_le _ _ _ (totalSizeOf_sortByMtime _).symm

/-- Witness for C1 at a two-file directory over the cap: the survivor
aggregate is within the cap. -/
theorem cleanup_bounds_aggregate_witness :
    totalSizeOf (List.filter
        (fun e => matchesLogPattern
          ({ maxLogsTotalSize := 10 } : LogConfig).baseName e.name)
        (cleanupOldLogFiles { maxLogsTotalSize := 10 }
          [⟨strBytes "server_a.log", 8, 1⟩,
           ⟨strBytes "server_b.log", 7, 2⟩]))
      ≤ 10 :=
  (cleanup_bounds_aggregate { maxLogsTotalSize := 10 }
    [⟨strBytes "server_a.log", 8, 1⟩, ⟨strBytes "server_b.log", 7, 2⟩]
    (by decide)).2

/-- C1 counterexample: with maxLogsTotalSize = 0 (and maxFileSize = 0,
so maxTotalSize ≥ maxFileSize still holds) the pass returns at once, so a
matching file of size 5 survives although the aggregate, 5, exceeds the
cap, 0, and matching files remain. -/
theorem cleanup_zero_cap_keeps_files :
    cleanupOldLogFiles { maxFileSize := 0, maxLogsTotalSize := 0 }
        [⟨strBytes "server_1.log", 5, 0⟩] =
      [⟨strBytes "server_1.log", 5, 0⟩] ∧
    totalSizeOf (([⟨strBytes "server_1.log", 5, 0⟩] : List FileEntry).filter
      fun e => matchesLogPattern
        ({ maxFileSize := 0, maxLogsTotalSize := 0 } : LogConfig).baseName
          e.name) = 5 ∧
    (([⟨strBytes "server_1.log", 5, 0⟩] : List FileEntry).filter
      fun e => matchesLogPattern
        ({ maxFileSize := 0, maxLogsTotalSize := 0 } : LogConfig).baseName
          e.name) ≠ [] := by
  refine ⟨rfl, by decide, by decide⟩

/-- Witness for C8: a one-byte Error record in an open session. -/
theorem error_record_forces_flush_witness :
    (workerIter {} 500 true 0 true 0
      ⟨[⟨.error, [97]⟩], true, 0, 0, 0, 0⟩).bytesSinceFlush = 0 :=
  (error_record_forces_flush {} 500 true true 0 0 ⟨.error, [97]⟩ []
    ⟨[⟨.error, [97]⟩], true, 0, 0, 0, 0⟩ rfl rfl rfl rfl).2.2.2

theorem jsonEscape_append (a b : List Nat) :
    jsonEscape (a ++ b) = jsonEscape a ++ jsonEscape b := by
  simp [jsonEscape]

theorem stripTrailing_append_last (l : List Nat) (c : Nat)
    (h10 : c ≠ 10) (h13 : c ≠ 13) :
    stripTrailing (l ++ [c]) = l ++ [c] := by
  unfold stripTrailing
  rw [List.reverse_append]
  simp [List.dropWhile, h10, h13]

theorem stripTrailing_dotlog (a : List Nat) :
    stripTrailing (a ++ strBytes ".log") = a ++ strBytes ".log" := by
  rw [show strBytes ".log" = [46, 108, 111, 103] from rfl]
  rw [show a ++ [46, 108, 111, 103] = (a ++ [46, 108, 111]) ++ [103] by simp]
  exact stripTrailing_append_last _ 103 (by decide) (by decide)

theorem newLogFilePath_dotlog (cfg : LogConfig) (y mo d h mi s : Nat) :
    newFileMsgPrefix ++ newLogFilePath cfg y mo d h mi s =
      (newFileMsgPrefix ++ cfg.logPath ++ cfg.baseName ++ [95] ++ pad4 y ++
        [45] ++ pad2 mo ++ [45] ++ pad2 d ++ [95] ++ pad2 h ++ [45] ++
        pad2 mi ++ [45] ++ pad2 s) ++ strBytes ".log" := by
  unfold newLogFilePath fileNameSuffix
  simp [List.append_assoc]

/-- C10 amended: every run of createNewLogFile emits one Info-severity
self-record containing the new file path (the LOG_INFO temporary at the
top of the function); when Info passes the severity threshold and the
queue is below capacity, exactly one record is appended to the queue, and
its payload contains the escaped path bytes. -/
theorem createNewLogFile_emits_path_record (cfg : LogConfig)
    (ts : List Nat) (y mo d h mi s : Nat) (st : QState)
    (hen : cfg.enable = true)
    (hlv : LogLevel.toInt .info ≤ cfg.level.toInt)
    (hcap : st.queue.length < cfg.maxQueueSize) :
    createNewLogFileEmit cfg ts (newLogFilePath cfg y mo d h mi s) st =
      some { st with queue := st.queue ++
        [⟨.info, renderLogLine ts .info none
            (newFileMsgPrefix ++ newLogFilePath cfg y mo d h mi s)⟩] } ∧
    ∃ pre post,
      renderLogLine ts .info none
          (newFileMsgPrefix ++ newLogFilePath cfg y mo d h mi s) =
        pre ++ jsonEscape (newLogFilePath cfg y mo d h mi s) ++ post := by
  have hstrip :
      stripTrailing (newFileMsgPrefix ++ newLogFilePath cfg y mo d h mi s) =
        newFileMsgPrefix ++ newLogFilePath cfg y mo d h mi s := by
    rw [newLogFilePath_dotlog]
    exact stripTrailing_dotlog _
  constructor
  · unfold createNewLogFileEmit emitModel pushModel
    have hadm : cfg.enable = true ∧
        LogLevel.toInt .info ≤ cfg.level.toInt := ⟨hen, hlv⟩
    rw [if_neg (not_not_intro hadm), if_neg (not_not_intro hadm),
      if_neg (by omega)]
  · refine ⟨strBytes "\x7b" ++ strBytes "\"time\":\"" ++ ts ++
      strBytes "\"" ++ strBytes ",\"level\":\"" ++ levelName .info ++
      strBytes "\"" ++ strBytes ",\"msg\":\"" ++
      jsonEscape newFileMsgPrefix,
      strBytes "\"" ++ strBytes "\x7d" ++ [10], ?_⟩
    unfold renderLogLine
    rw [hstrip, jsonEscape_append]
    simp [List.append_assoc]

/-- Witness for C10 at the default configuration with an empty queue. -/
theorem createNewLogFile_emits_path_record_witness :
    createNewLogFileEmit {} [] (newLogFilePath {} 0 0 0 0 0 0) ⟨[], 0⟩ =
      some ⟨[⟨.info, renderLogLine [] .info none
        (newFileMsgPrefix ++ newLogFilePath {} 0 0 0 0 0 0)⟩], 0⟩ :=
  (createNewLogFile_emits_path_record {} [] 0 0 0 0 0 0 ⟨[], 0⟩ rfl
    (by decide) (by decide)).1

/-- C10 counterexample: with the queue at capacity under the drop
policy, the Info self-record of createNewLogFile is discarded, so the
open enqueues no additional record even though Info passes the
threshold. -/
theorem createNewLogFile_emit_dropped_at_capacity :
    createNewLogFileEmit { maxQueueSize := 1, queuePolicy := "drop" } []
        (newLogFilePath { maxQueueSize := 1, queuePolicy := "drop" }
          0 0 0 0 0 0)
        ⟨[⟨.debug, []⟩], 0⟩ =
      some ⟨[⟨.debug, []⟩], 0⟩ := by
  rfl

theorem hexVal_hexDigit (x : Nat) (h : x < 16) :
    hexVal (hexDigit x) = some x := by
  interval_cases x <;> decide

theorem jsonEscape_nil : jsonEscape [] = [] := rfl

theorem jsonEscape_cons (c : Nat) (t : List Nat) :
    jsonEscape (c :: t) = escByte c ++ jsonEscape t := by
  simp [jsonEscape]

theorem one_le_escByte_length (c : Nat) : 1 ≤ (escByte c).length := by
  unfold escByte
  split_ifs <;> simp

theorem length_le_jsonEscape (s : List Nat) :
    s.length ≤ (jsonEscape s).length := by
  induction s with
  | nil => simp [jsonEscape]
  | cons c t ih =>
    rw [jsonEscape_cons]
    have := one_le_escByte_length c
    simp only [List.length_append, List.length_cons]
    omega

theorem mem_stripTrailing (s : List Nat) (c : Nat)
    (h : c ∈ stripTrailing s) : c ∈ s := by
  unfold stripTrailing at h
  rw [List.mem_reverse] at h
  rw [← List.mem_reverse]
  exact (List.dropWhile_suffix fun c => c = 10 || c = 13).sublist.subset h

/-- Byte classes that pass through a JSON string body unescaped. -/
theorem pad2_safe (n : Nat) : ∀ c ∈ pad2 n, 32 ≤ c ∧ c ≠ 34 ∧ c ≠ 92 := by
  intro c hc
  unfold pad2 at hc
  simp only [List.mem_cons, List.not_mem_nil, or_false] at hc
  have h1 := Nat.mod_lt (n / 10) (show 0 < 10 by omega)
  have h2 := Nat.mod_lt n (show 0 < 10 by omega)
  rcases hc with rfl | rfl <;> refine ⟨by omega, by omega, by omega⟩

theorem pad4_safe (n : Nat) : ∀ c ∈ pad4 n, 32 ≤ c ∧ c ≠ 34 ∧ c ≠ 92 := by
  intro c hc
  unfold pad4 at hc
  simp only [List.mem_cons, List.not_mem_nil, or_false] at hc
  have h1 := Nat.mod_lt (n / 1000) (show 0 < 10 by omega)
  have h2 := Nat.mod_lt (n / 100) (show 0 < 10 by omega)
  have h3 := Nat.mod_lt (n / 10) (show 0 < 10 by omega)
  have h4 := Nat.mod_lt n (show 0 < 10 by omega)
  rcases hc with rfl | rfl | rfl | rfl <;>
    refine ⟨by omega, by omega, by omega⟩

theorem renderTs_safe (y mo d hh mi s : Nat) :
    ∀ c ∈ renderTs y mo d hh mi s, 32 ≤ c ∧ c ≠ 34 ∧ c ≠ 92 := by
  intro c hc
  unfold renderTs at hc
  simp only [List.mem_append, List.mem_singleton] at hc
  rcases hc with
    ((((((((((h | rfl) | h) | rfl) | h) | rfl) | h) | rfl) | h) | rfl) | h)
  · exact pad4_safe y c h
  · refine ⟨by omega, by omega, by omega⟩
  · exact pad2_safe mo c h
  · refine ⟨by omega, by omega, by omega⟩
  · exact pad2_safe d c h
  · refine ⟨by omega, by omega, by omega⟩
  · exact pad2_safe hh c h
  · refine ⟨by omega, by omega, by omega⟩
  · exact pad2_safe mi c h
  · refine ⟨by omega, by omega, by omega⟩
  · exact pad2_safe s c h

theorem levelName_safe (lvl : LogLevel) :
    ∀ c ∈ levelName lvl, 32 ≤ c ∧ c ≠ 34 ∧ c ≠ 92 := by
  cases lvl <;> decide

theorem parseStringBody_safe (s : List Nat) (rest : List Nat) (fuel : Nat)
    (hs : ∀ c ∈ s, 32 ≤ c ∧ c ≠ 34 ∧ c ≠ 92) (hf : s.length < fuel) :
    parseStringBody fuel (s ++ 34 :: rest) = some (s, rest) := by
  induction s generalizing fuel with
  | nil =>
    obtain ⟨f, rfl⟩ : ∃ f, fuel = f + 1 := ⟨fuel - 1, by omega⟩
    simp [parseStringBody]
  | cons c t ih =>
    obtain ⟨f, rfl⟩ : ∃ f, fuel = f + 1 := ⟨fuel - 1, by omega⟩
    obtain ⟨hc32, hc34, hc92⟩ := hs c (List.mem_cons_self c t)
    have hrec := ih f (fun x hx => hs x (List.mem_cons_of_mem _ hx))
      (by simp only [List.length_cons] at hf; omega)
    simp only [List.cons_append, parseStringBody, List.append_eq]
    rw [if_neg hc34, if_neg hc92, if_neg (by omega : ¬ c < 32), hrec]
    rfl

theorem parseStringBody_escape (s : List Nat) (rest : List Nat) (fuel : Nat)
    (hs : ∀ c ∈ s, c < 256) (hf : s.length < fuel) :
    parseStringBody fuel (jsonEscape s ++ 34 :: rest) = some (s, rest) := by
  induction s generalizing fuel with
  | nil =>
    obtain ⟨f, rfl⟩ : ∃ f, fuel = f + 1 := ⟨fuel - 1, by omega⟩
    simp [jsonEscape, parseStringBody]
  | cons c t ih =>
    obtain ⟨f, rfl⟩ : ∃ f, fuel = f + 1 := ⟨fuel - 1, by omega⟩
    have hc := hs c (List.mem_cons_self c t)
    have hrec := ih f (fun x hx => hs x (List.mem_cons_of_mem _ hx))
      (by simp only [List.length_cons] at hf; omega)
    rw [jsonEscape_cons]
    unfold escByte
    split_ifs with h34 h92 h8 h12 h10 h13 h9 hlt
    · subst h34
      simp [parseStringBody, hrec]
    · subst h92
      simp [parseStringBody, hrec]
    · subst h8
      simp [parseStringBody, hrec]
    · subst h12
      simp [parseStringBody, hrec]
    · subst h10
      simp [parseStringBody, hrec]
    · subst h13
      simp [parseStringBody, hrec]
    · subst h9
      simp [parseStringBody, hrec]
    · have hq : c / 16 < 16 := by omega
      have hr : c % 16 < 16 := Nat.mod_lt c (by omega)
      have hv : c / 16 * 16 + c % 16 = c := by omega
      have h48 : hexVal 48 = some 0 := rfl
      simp [parseStringBody, h48, hexVal_hexDigit _ hq,
        hexVal_hexDigit _ hr, hrec, hv]
    · simp only [List.cons_append, List.nil_append, parseStringBody,
        List.append_eq]
      rw [if_neg h34, if_neg h92, if_neg hlt, hrec]
      rfl

theorem parseMember_raw (key body rest : List Nat) (F : Nat)
    (hkey : ∀ c ∈ key, 32 ≤ c ∧ c ≠ 34 ∧ c ≠ 92)
    (hbody : ∀ c ∈ body, 32 ≤ c ∧ c ≠ 34 ∧ c ≠ 92)
    (hFk : key.length < F) (hFb : body.length < F) :
    parseMember F (mRawChunk key body ++ rest) =
      some ((key, .str body), rest) := by
  have hshape : mRawChunk key body ++ rest =
      34 :: (key ++ 34 :: 58 :: 34 :: (body ++ 34 :: rest)) := by
    simp [mRawChunk]
  rw [hshape]
  simp only [parseMember]
  rw [parseStringBody_safe key _ F hkey hFk]
  simp only [parseValue]
  rw [parseStringBody_safe body rest F hbody hFb]
  rfl

theorem parseMember_esc (key content rest : List Nat) (F : Nat)
    (hkey : ∀ c ∈ key, 32 ≤ c ∧ c ≠ 34 ∧ c ≠ 92)
    (hcontent : ∀ c ∈ content, c < 256)
    (hFk : key.length < F) (hFc : content.length < F) :
    parseMember F (mStrChunk key content ++ rest) =
      some ((key, .str content), rest) := by
  have hshape : mStrChunk key content ++ rest =
      34 :: (key ++ 34 :: 58 :: 34 :: (jsonEscape content ++ 34 :: rest)) := by
    simp [mStrChunk]
  rw [hshape]
  simp only [parseMember]
  rw [parseStringBody_safe key _ F hkey hFk]
  simp only [parseValue]
  rw [parseStringBody_escape content rest F hcontent hFc]
  rfl

theorem natBytesAux_digits (fuel n : Nat) :
    ∀ c ∈ natBytesAux fuel n, 48 ≤ c ∧ c ≤ 57 := by
  induction fuel generalizing n with
  | zero => simp [natBytesAux]
  | succ f ih =>
    intro c hc
    unfold natBytesAux at hc
    split at hc
    · next hlt =>
      simp only [List.mem_singleton] at hc
      omega
    · next hge =>
      rcases List.mem_append.mp hc with h | h
      · exact ih (n / 10) c h
      · simp only [List.mem_singleton] at h
        have := Nat.mod_lt n (show 0 < 10 by omega)
        omega

theorem natBytesAux_ne_nil (fuel n : Nat) (h : 0 < fuel) :
    natBytesAux fuel n ≠ [] := by
  obtain ⟨f, rfl⟩ : ∃ f, fuel = f + 1 := ⟨fuel - 1, by omega⟩
  unfold natBytesAux
  split
  · simp
  · simp

theorem natBytes_digits (n : Nat) : ∀ c ∈ natBytes n, 48 ≤ c ∧ c ≤ 57 :=
  natBytesAux_digits (n + 1) n

theorem natBytes_ne_nil (n : Nat) : natBytes n ≠ [] :=
  natBytesAux_ne_nil (n + 1) n (by omega)

theorem span_digits_append (d r : List Nat)
    (hd : ∀ c ∈ d, isDigit c = true)
    (hr : ∀ c0, r.head? = some c0 → isDigit c0 = false) :
    (d ++ r).span isDigit = (d, r) := by
  rw [List.span_eq_take_drop]
  induction d with
  | nil =>
    cases r with
    | nil => simp
    | cons c0 r0 =>
      have := hr c0 rfl
      simp [List.takeWhile_cons, List.dropWhile_cons, this]
  | cons c cs ih =>
    have hc := hd c (List.mem_cons_self c cs)
    have ih2 := ih fun x hx => hd x (List.mem_cons_of_mem _ hx)
    simp only [List.cons_append, List.takeWhile_cons, List.dropWhile_cons,
      hc, if_true]
    rw [Prod.mk.injEq] at ih2
    rw [ih2.1, ih2.2]

theorem parseNumber_intBytes (i : Int) (r : List Nat)
    (hr : ∀ c0, r.head? = some c0 → isDigit c0 = false) :
    parseNumber (intBytes i ++ r) =
      some (.num (decide (i < 0)) (natBytes i.natAbs), r) := by
  have hspan : (natBytes i.natAbs ++ r).span isDigit =
      (natBytes i.natAbs, r) :=
    span_digits_append _ r
      (fun c hc => by
        have := natBytes_digits i.natAbs c hc
        simp [isDigit]
        omega) hr
  by_cases hi : i < 0
  · unfold intBytes
    rw [if_pos hi]
    simp only [List.cons_append, parseNumber, hspan]
    rw [if_neg (natBytes_ne_nil i.natAbs)]
    simp [hi]
  · unfold intBytes
    rw [if_neg hi]
    obtain ⟨c, cs, hcons⟩ : ∃ c cs, natBytes i.natAbs = c :: cs := by
      cases h : natBytes i.natAbs with
      | nil => exact absurd h (natBytes_ne_nil i.natAbs)
      | cons c cs => exact ⟨c, cs, rfl⟩
    have hcd := natBytes_digits i.natAbs c (by rw [hcons]; simp)
    rw [hcons]
    rw [hcons] at hspan
    simp only [List.cons_append] at hspan ⊢
    unfold parseNumber
    split
    · next heq =>
      exfalso
      have : c = 45 := by
        have := List.cons.injEq .. ▸ heq
        omega
      omega
    · rw [hspan]
      rw [if_neg (by simp)]
      simp [hi]

theorem parseMember_num (key : List Nat) (i : Int) (rest : List Nat)
    (F : Nat) (hkey : ∀ c ∈ key, 32 ≤ c ∧ c ≠ 34 ∧ c ≠ 92)
    (hFk : key.length < F)
    (hrest : ∀ c0, rest.head? = some c0 → isDigit c0 = false) :
    parseMember F (mNumChunk key i ++ rest) =
      some ((key, .num (decide (i < 0)) (natBytes i.natAbs)), rest) := by
  have hval : parseValue F (intBytes i ++ rest) =
      some (.num (decide (i < 0)) (natBytes i.natAbs), rest) := by
    have hnum := parseNumber_intBytes i rest hrest
    by_cases hi : i < 0
    · unfold intBytes at hnum ⊢
      rw [if_pos hi] at hnum ⊢
      simp only [List.cons_append, parseValue] at hnum ⊢
      exact hnum
    · unfold intBytes at hnum ⊢
      rw [if_neg hi] at hnum ⊢
      obtain ⟨c, cs, hcons⟩ : ∃ c cs, natBytes i.natAbs = c :: cs := by
        cases h : natBytes i.natAbs with
        | nil => exact absurd h (natBytes_ne_nil i.natAbs)
        | cons c cs => exact ⟨c, cs, rfl⟩
      have hcd := natBytes_digits i.natAbs c (by rw [hcons]; simp)
      rw [hcons] at hnum ⊢
      simp only [List.cons_append, parseValue] at hnum ⊢
      split
      · next rest2 heq =>
        exfalso
        have hc34 : c = 34 := by
          have := congrArg List.head? heq
          simpa using this
        omega
      · exact hnum
  have hshape : mNumChunk key i ++ rest =
      34 :: (key ++ 34 :: 58 :: (intBytes i ++ rest)) := by
    simp [mNumChunk]
  rw [hshape]
  simp only [parseMember]
  rw [parseStringBody_safe key _ F hkey hFk]
  simp only [hval]
  rfl

theorem parseMembers_chain (chunks : List (List Nat × (List Nat × JVal))) :
    ∀ (tail : List Nat) (fuel : Nat),
      chunks ≠ [] →
      chunks.length ≤ fuel →
      (∀ c ∈ chunks, ∀ r : List Nat,
        (∀ c0, r.head? = some c0 → isDigit c0 = false) →
        parseMember ((c.1 ++ r).length + 1) (c.1 ++ r) = some (c.2, r)) →
      (∀ c0, tail.head? = some c0 → c0 ≠ 44 ∧ isDigit c0 = false) →
      parseMembers fuel (joinMembers chunks ++ tail) =
        some (chunks.map Prod.snd, tail) := by
  induction chunks with
  | nil =>
    intro tail fuel hne
    exact absurd rfl hne
  | cons c cs ih =>
    intro tail fuel hne hfuel hmem htail
    obtain ⟨f, rfl⟩ : ∃ f, fuel = f + 1 :=
      ⟨fuel - 1, by simp at hfuel; omega⟩
    cases cs with
    | nil =>
      simp only [joinMembers]
      simp only [parseMembers]
      rw [hmem c (List.mem_cons_self c []) tail
        (fun c0 h => (htail c0 h).2)]
      cases tail with
      | nil => rfl
      | cons t0 ts =>
        have h44 := (htail t0 rfl).1
        simp only [List.map_cons, List.map_nil]
        split
        · next heq =>
          exfalso
          apply h44
          have := congrArg List.head? heq
          simpa using this
        · rfl
    | cons c2 cs2 =>
      have hj : joinMembers (c :: c2 :: cs2) =
          c.1 ++ 44 :: joinMembers (c2 :: cs2) := rfl
      rw [hj, show (c.1 ++ 44 :: joinMembers (c2 :: cs2)) ++ tail =
          c.1 ++ (44 :: (joinMembers (c2 :: cs2) ++ tail)) by simp]
      simp only [parseMembers]
      rw [hmem c (List.mem_cons_self c (c2 :: cs2))
        (44 :: (joinMembers (c2 :: cs2) ++ tail))
        (fun c0 h => by
          simp only [List.head?_cons, Option.some.injEq] at h
          subst h
          decide)]
      dsimp only
      rw [ih tail f (by simp) (by simp at hfuel ⊢; omega)
        (fun x hx => hmem x (List.mem_cons_of_mem _ hx)) htail]
      rfl

theorem renderLogLine_none_chunks (ts : List Nat) (lvl : LogLevel)
    (raw : List Nat) :
    renderLogLine ts lvl none raw =
      123 :: (joinMembers
        [(mRawChunk [116, 105, 109, 101] ts, ([116, 105, 109, 101], .str ts)),
         (mRawChunk [108, 101, 118, 101, 108] (levelName lvl),
           ([108, 101, 118, 101, 108], .str (levelName lvl))),
         (mStrChunk [109, 115, 103] (stripTrailing raw),
           ([109, 115, 103], .str (stripTrailing raw)))] ++ [125, 10]) := by
  have e1 : strBytes "\x7b" = [123] := by decide
  have e2 : strBytes "\"time\":\"" = [34, 116, 105, 109, 101, 34, 58, 34] := by
    decide
  have e3 : strBytes "\"" = [34] := by decide
  have e4 : strBytes ",\"level\":\"" =
      [44, 34, 108, 101, 118, 101, 108, 34, 58, 34] := by decide
  have e5 : strBytes ",\"msg\":\"" = [44, 34, 109, 115, 103, 34, 58, 34] := by
    decide
  have e6 : strBytes "\x7d" = [125] := by decide
  have k1 : strBytes "time" = [116, 105, 109, 101] := by decide
  have k2 : strBytes "level" = [108, 101, 118, 101, 108] := by decide
  have k3 : strBytes "msg" = [109, 115, 103] := by decide
  simp only [renderLogLine, joinMembers, mRawChunk, mStrChunk,
    e1, e2, e3, e4, e5, e6, k1, k2, k3]
  simp [List.cons_append, List.append_assoc]

theorem renderLogLine_some_chunks (ts : List Nat) (lvl : LogLevel)
    (u : Callsite) (raw : List Nat) :
    renderLogLine ts lvl (some u) raw =
      123 :: (joinMembers
        [(mRawChunk [116, 105, 109, 101] ts, ([116, 105, 109, 101], .str ts)),
         (mRawChunk [108, 101, 118, 101, 108] (levelName lvl),
           ([108, 101, 118, 101, 108], .str (levelName lvl))),
         (mStrChunk [102, 105, 108, 101] u.fileName,
           ([102, 105, 108, 101], .str u.fileName)),
         (mNumChunk [108, 105, 110, 101] u.lineNum,
           ([108, 105, 110, 101],
             .num (decide (u.lineNum < 0)) (natBytes u.lineNum.natAbs))),
         (mStrChunk [102, 117, 110, 99] u.funcName,
           ([102, 117, 110, 99], .str u.funcName)),
         (mStrChunk [109, 115, 103] (stripTrailing raw),
           ([109, 115, 103], .str (stripTrailing raw)))] ++ [125, 10]) := by
  have e1 : strBytes "\x7b" = [123] := by decide
  have e2 : strBytes "\"time\":\"" = [34, 116, 105, 109, 101, 34, 58, 34] := by
    decide
  have e3 : strBytes "\"" = [34] := by decide
  have e4 : strBytes ",\"level\":\"" =
      [44, 34, 108, 101, 118, 101, 108, 34, 58, 34] := by decide
  have e5 : strBytes ",\"msg\":\"" = [44, 34, 109, 115, 103, 34, 58, 34] := by
    decide
  have e6 : strBytes "\x7d" = [125] := by decide
  have e7 : strBytes ",\"file\":\"" =
      [44, 34, 102, 105, 108, 101, 34, 58, 34] := by decide
  have e8 : strBytes ",\"line\":" = [44, 34, 108, 105, 110, 101, 34, 58] := by
    decide
  have e9 : strBytes ",\"func\":\"" =
      [44, 34, 102, 117, 110, 99, 34, 58, 34] := by decide
  have k1 : strBytes "time" = [116, 105, 109, 101] := by decide
  have k2 : strBytes "level" = [108, 101, 118, 101, 108] := by decide
  have k3 : strBytes "msg" = [109, 115, 103] := by decide
  have k4 : strBytes "file" = [102, 105, 108, 101] := by decide
  have k5 : strBytes "line" = [108, 105, 110, 101] := by decide
  have k6 : strBytes "func" = [102, 117, 110, 99] := by decide
  simp only [renderLogLine, joinMembers, mRawChunk, mStrChunk, mNumChunk,
    e1, e2, e3, e4, e5, e6, e7, e8, e9, k1, k2, k3, k4, k5, k6]
  simp [List.cons_append, List.append_assoc]

theorem parseLogLine_chunks (chunks : List (List Nat × (List Nat × JVal)))
    (hne : chunks ≠ [])
    (hlen : chunks.length ≤
      (123 :: (joinMembers chunks ++ [125, 10])).length + 1)
    (hmem : ∀ c ∈ chunks, ∀ r : List Nat,
      (∀ c0, r.head? = some c0 → isDigit c0 = false) →
      parseMember ((c.1 ++ r).length + 1) (c.1 ++ r) = some (c.2, r)) :
    parseLogLine (123 :: (joinMembers chunks ++ [125, 10])) =
      some (chunks.map Prod.snd) := by
  unfold parseLogLine
  simp only [parseObject]
  rw [parseMembers_chain chunks [125, 10] _ hne hlen hmem
    (fun c0 h => by
      simp only [List.head?_cons, Option.some.injEq] at h
      subst h
      exact ⟨by decide, by decide⟩)]

/-- C3 amended: every emitted line parses as one JSON object followed by
a newline byte, and un-escaping its msg member yields the emit message
after trailing newline / carriage-return stripping — equal to the
original message exactly when that message had no trailing newline or
carriage-return bytes. -/
theorem emitted_line_is_json_and_msg_roundtrips
    (y mo d hh mi s : Nat) (lvl : LogLevel) (cs : Option Callsite)
    (raw : List Nat) (hmsg : ∀ c ∈ raw, c < 256)
    (hfile : ∀ u ∈ cs, ∀ b ∈ u.fileName, b < 256)
    (hfunc : ∀ u ∈ cs, ∀ b ∈ u.funcName, b < 256) :
    ∃ ms, parseLogLine
        (renderLogLine (renderTs y mo d hh mi s) lvl cs raw) = some ms ∧
      lookupKey (strBytes "msg") ms = some (.str (stripTrailing raw)) := by
  have k3 : strBytes "msg" = [109, 115, 103] := by decide
  have hstripmem : ∀ c ∈ stripTrailing raw, c < 256 :=
    fun c hc => hmsg c (mem_stripTrailing raw c hc)
  have hesc := length_le_jsonEscape (stripTrailing raw)
  cases cs with
  | none =>
    rw [renderLogLine_none_chunks]
    refine ⟨_, parseLogLine_chunks _ (by simp)
      (by simp [joinMembers, mRawChunk, mStrChunk, mNumChunk,
        List.length_append]; try omega) ?_, ?_⟩
    · intro c hc r hr
      simp only [List.mem_cons, List.not_mem_nil, or_false] at hc
      rcases hc with rfl | rfl | rfl
      · exact parseMember_raw _ _ r _ (by decide)
          (renderTs_safe y mo d hh mi s)
          (by simp [mRawChunk, List.length_append]; try omega)
          (by simp [mRawChunk, List.length_append]; try omega)
      · exact parseMember_raw _ _ r _ (by decide) (levelName_safe lvl)
          (by simp [mRawChunk, List.length_append]; try omega)
          (by simp [mRawChunk, List.length_append]; try omega)
      · exact parseMember_esc _ _ r _ (by decide) hstripmem
          (by simp [mStrChunk, List.length_append]; try omega)
          (by simp [mStrChunk, List.length_append]; try omega)
    · rw [k3]
      simp [lookupKey]
  | some u =>
    rw [renderLogLine_some_chunks]
    refine ⟨_, parseLogLine_chunks _ (by simp)
      (by simp [joinMembers, mRawChunk, mStrChunk, mNumChunk,
        List.length_append]; try omega) ?_, ?_⟩
    · intro c hc r hr
      simp only [List.mem_cons, List.not_mem_nil, or_false] at hc
      have hfile2 : ∀ b ∈ u.fileName, b < 256 := hfile u rfl
      have hfunc2 : ∀ b ∈ u.funcName, b < 256 := hfunc u rfl
      have hescf := length_le_jsonEscape u.fileName
      have hescg := length_le_jsonEscape u.funcName
      rcases hc with rfl | rfl | rfl | rfl | rfl | rfl
      · exact parseMember_raw _ _ r _ (by decide)
          (renderTs_safe y mo d hh mi s)
          (by simp [mRawChunk, List.length_append]; try omega)
          (by simp [mRawChunk, List.length_append]; try omega)
      · exact parseMember_raw _ _ r _ (by decide) (levelName_safe lvl)
          (by simp [mRawChunk, List.length_append]; try omega)
          (by simp [mRawChunk, List.length_append]; try omega)
      · exact parseMember_esc _ _ r _ (by decide) hfile2
          (by simp [mStrChunk, List.length_append]; try omega)
          (by simp [mStrChunk, List.length_append]; try omega)
      · exact parseMember_num _ _ r _ (by decide)
          (by simp [mNumChunk, List.length_append]; try omega) hr
      · exact parseMember_esc _ _ r _ (by decide) hfunc2
          (by simp [mStrChunk, List.length_append]; try omega)
          (by simp [mStrChunk, List.length_append]; try omega)
      · exact parseMember_esc _ _ r _ (by decide) hstripmem
          (by simp [mStrChunk, List.length_append]; try omega)
          (by simp [mStrChunk, List.length_append]; try omega)
    · rw [k3]
      simp [lookupKey]

/-- Witness for C3: an Error line with callsite and a message holding a
quote and a trailing newline. -/
theorem emitted_line_is_json_and_msg_roundtrips_witness :
    ∃ ms, parseLogLine (renderLogLine (renderTs 2025 12 10 18 0 1) .error
        (some ⟨strBytes "main.cpp", 12, strBytes "main"⟩)
        (strBytes "x=\"1\"\n")) = some ms ∧
      lookupKey (strBytes "msg") ms =
        some (.str (stripTrailing (strBytes "x=\"1\"\n"))) :=
  emitted_line_is_json_and_msg_roundtrips 2025 12 10 18 0 1 .error
    (some ⟨strBytes "main.cpp", 12, strBytes "main"⟩)
    (strBytes "x=\"1\"\n") (by decide)
    (fun u hu => by cases hu; decide)
    (fun u hu => by cases hu; decide)

/-- C3 counterexample: for the message bytes "a\n", the destructor strips
the trailing newline before escaping, so un-escaping the msg member of
the emitted line yields "a", not the original message. -/
theorem msg_unescape_not_original_message :
    ((parseLogLine (renderLogLine (renderTs 2025 12 10 18 0 1) .info none
        [97, 10])).bind (lookupKey (strBytes "msg"))) ≠
      some (.str [97, 10]) := by decide

end CsLog
